import Mathlib

/-!
Shallow embedding of the `ocr_classifier` package (OCR engine, CamemBERT
classifier, document pipeline) and proofs of its specified properties.

Each definition is translated from the corresponding Python function in
`src/ocr_classifier/`.  External effects are made explicit: the Tesseract
output for one image is modelled as a list of `(text, conf)` tokens, a
document on disk is a record carrying its existence flag, extension and
content, and fallible operations return `Except`.
-/

namespace OCRClassifier

/-- One token of the `pytesseract.image_to_data` dictionary: the recognized
text together with its confidence.  `conf = none` models a value on which
`float(conf)` raises (the `except (TypeError, ValueError): continue` branch
of `_run_on_pil_image`). -/
structure TessToken where
  text : String
  conf : Option ℚ
deriving Repr, DecidableEq

/-- The `OCRPageResult` dataclass of `ocr.py`: page number, extracted text, and
optional mean confidence. -/
structure OCRPageResult where
  page_number : Nat
  text : String
  confidence : Option ℚ
deriving Repr, DecidableEq

/-- Truthiness of `text.strip()` in Python: the string keeps at least one
character after stripping whitespace, i.e. some character is not
whitespace. -/
def hasContent (s : String) : Bool :=
  s.data.any (fun c => !c.isWhitespace)

/-- One iteration of the loop of `OCREngine._run_on_pil_image`
(`ocr.py` lines 101-109), acting on the accumulated
`(text_lines, confidences)` pair: append the token text when it has
non-whitespace content (`if text.strip():`); append the parsed confidence
when `float(conf)` succeeded and the value is strictly greater than `-1`. -/
def pageStep (acc : List String × List ℚ) (tok : TessToken) : List String × List ℚ :=
  let lines := if hasContent tok.text then acc.1 ++ [tok.text] else acc.1
  let confs :=
    match tok.conf with
    | none => acc.2
    | some c => if c > -1 then acc.2 ++ [c] else acc.2
  (lines, confs)

/-- The whole loop of `OCREngine._run_on_pil_image`: fold `pageStep` over
the zipped `text`/`conf` token list, starting from empty accumulators. -/
def pageLoop (tokens : List TessToken) : List String × List ℚ :=
  tokens.foldl pageStep ([], [])

/-- The `OCREngine._run_on_pil_image` (`ocr.py` lines 97-116): joins the kept
lines with `"\n"` and takes the mean of the surviving confidences, or
`none` when no confidence survived. -/
def run_on_pil_image (tokens : List TessToken) (page_number : Nat) : OCRPageResult :=
  let (text_lines, confidences) := pageLoop tokens
  let mean_confidence : Option ℚ :=
    if confidences ≠ [] then some (confidences.sum / confidences.length) else none
  { page_number := page_number
    text := String.intercalate "\n" text_lines
    confidence := mean_confidence }

/-- The `OCREngine._run_on_pdf` (`ocr.py` lines 78-89): rasterizes the PDF into
an ordered list of page images (modelled by their Tesseract token lists) and
runs OCR on page `index` with `page_number = index + 1`. -/
def run_on_pdf (pages : List (List TessToken)) : List OCRPageResult :=
  pages.enum.map fun p => run_on_pil_image p.2 (p.1 + 1)

/-- A document on disk, as `OCREngine.run` observes it: whether the path
exists, its extension (`Path.suffix`), and its content.  The content is
carried both as PDF pages and as a single image's tokens; only the branch
taken by `run` ever looks at it. -/
structure Document where
  path_exists : Bool
  suffix : String
  pdfPages : List (List TessToken)
  imageTokens : List TessToken

/-- Errors raised by `OCREngine.run`: `FileNotFoundError` and the
`ValueError("Format non supporté: ...")` for unsupported extensions. -/
inductive OCRError where
  | notFound
  | unsupportedFormat (suffix : String)
deriving Repr, DecidableEq

/-- Python's `str.lower()`, character by character (the suffixes compared
against are all ASCII). -/
def lowerStr (s : String) : String :=
  ⟨s.data.map Char.toLower⟩

/-- The `OCREngine.run` (`ocr.py` lines 58-76): existence check, then dispatch
on the lower-cased extension; PDF and the four raster extensions are
supported, anything else raises before any content is read. -/
def run (doc : Document) : Except OCRError (List OCRPageResult) :=
  if doc.path_exists = false then .error .notFound
  else
    let suffix := lowerStr doc.suffix
    if suffix = ".pdf" then .ok (run_on_pdf doc.pdfPages)
    else if suffix = ".png" ∨ suffix = ".jpg" ∨ suffix = ".jpeg" ∨ suffix = ".tiff" then
      .ok [run_on_pil_image doc.imageTokens 1]
    else .error (.unsupportedFormat suffix)

/-- The `OCREngine.aggregate_text` (`ocr.py` lines 118-122): join the page texts
with a blank-line separator. -/
def aggregate_text (results : List OCRPageResult) : String :=
  String.intercalate "\n\n" (results.map (·.text))

/-- The `OCREngine.aggregate_confidence` (`ocr.py` lines 124-131): collect the
non-`None` page confidences; `none` when the collection is empty, else the
arithmetic mean. -/
def aggregate_confidence (results : List OCRPageResult) : Option ℚ :=
  let confidences := results.filterMap (·.confidence)
  if confidences = [] then none
  else some (confidences.sum / confidences.length)

/-- The `ClassificationResult` dataclass of `classifier.py`. -/
structure ClassificationResult where
  label : String
  score : ℚ
deriving Repr, DecidableEq

/-- Exceptions escaping from `CamembertClassifier` methods:
`KeyError` from `self.label2id[label]` (train/evaluate dataset
construction), `KeyError` from `self.id2label[label_id]`, sklearn's
`ValueError` when `classification_report` sees a number of distinct
classes different from `len(target_names)`, and the `torch.max`/`argmax`
failure on an empty logits dimension. -/
inductive ClfError where
  | labelLookup (label : String)
  | idLookup (i : Nat)
  | reportSizeMismatch (numClasses numTargets : Nat)
  | emptyLogits
deriving Repr, DecidableEq

/-- The `CamembertClassifier` state.  `label_names` is the list stored by
`__init__`; the `id2label`/`label2id` dicts are derived from it (below).
The tokenizer and the pretrained encoder are opaque parameterized
functions: `tokenizer` maps a text to its input ids (the padding /
truncation of `encode` folded in), `encoderF` maps input ids to the
`[CLS]` embedding `outputs.last_hidden_state[:, 0, :]`, and the linear
head is a weight matrix (one row per output class) plus a bias vector. -/
structure Classifier where
  label_names : List String
  tokenizer : String → List Nat
  encoderF : List Nat → List ℚ
  headW : List (List ℚ)
  headB : List ℚ

/-- Lookup in the dict `{idx: label for idx, label in enumerate(label_names)}`
built at `classifier.py` line 49: defined for exactly the ids `0..n-1`. -/
def id2label (names : List String) (i : Nat) : Option String :=
  names[i]?

/-- Lookup in the dict `{label: idx for idx, label in enumerate(label_names)}`
built at `classifier.py` line 50: for a duplicated label the later index
overwrites the earlier one, so lookup returns the LAST index of the label;
a label not in the list raises `KeyError`, modelled by `none`. -/
def label2id (names : List String) (l : String) : Option Nat :=
  ((names.enum.filter (fun p => p.2 = l)).map Prod.fst).getLast?

/-- Inner product, as computed by the linear layer. -/
def dot (xs ys : List ℚ) : ℚ :=
  (List.zipWith (· * ·) xs ys).sum

/-- The forward pass shared by `predict`/`evaluate`/`train`
(`classifier.py` lines 99-101 / 128-130 / 150-152): encode the text, take
the `[CLS]` embedding, apply the linear classification head. -/
def logitsOf (c : Classifier) (text : String) : List ℚ :=
  let cls_embedding := c.encoderF (c.tokenizer text)
  List.zipWith (fun row b => dot row cls_embedding + b) c.headW c.headB

/-- Helper for `torch.max(…, dim=1)` / `torch.argmax(…, dim=1)` on one row:
scan the remaining entries keeping the current best value, the index where
it was first attained, and the index of the next entry. -/
def argmaxAux : List ℚ → ℚ → Nat → Nat → ℚ × Nat
  | [], best, bestIdx, _ => (best, bestIdx)
  | z :: zs, best, bestIdx, i =>
      if best < z then argmaxAux zs z i (i + 1) else argmaxAux zs best bestIdx (i + 1)

/-- The `torch.max(row, dim=1)`: the maximum value together with the index of
its first occurrence; fails on an empty row (an empty label set would give
the head zero output features). -/
def argmaxWithVal : List ℚ → Option (ℚ × Nat)
  | [] => none
  | z :: zs => some (argmaxAux zs z 0 1)

/-- The `torch.nn.functional.softmax(logits, dim=1)` on one row, with the
exponential kept abstract as a function parameter `expf` (the claims need
only its positivity). -/
def softmax (expf : ℚ → ℚ) (zs : List ℚ) : List ℚ :=
  let es := zs.map expf
  es.map (fun e => e / es.sum)

/-- The `CamembertClassifier.predict` (`classifier.py` lines 142-156): forward
pass on the single text, softmax over the logits, `torch.max` for the best
probability and its label id, then `self.id2label[label_id]`. -/
def predict (expf : ℚ → ℚ) (c : Classifier) (text : String) :
    Except ClfError ClassificationResult :=
  let probabilities := softmax expf (logitsOf c text)
  match argmaxWithVal probabilities with
  | none => .error .emptyLogits
  | some (score, label_id) =>
    match id2label c.label_names label_id with
    | none => .error (.idLookup label_id)
    | some label => .ok ⟨label, score⟩

/-- The three artifacts `save` writes under its directory
(`classifier.py` lines 158-162): the tokenizer assets, `encoder.pt`, and
`classifier_head.pt`.  A `state_dict` determines the module's function, so
each parameter blob is modelled by the function it induces. -/
structure SavedArtifacts where
  tokenizer_files : String → List Nat
  encoder_pt : List Nat → List ℚ
  head_pt : List (List ℚ) × List ℚ

/-- The `CamembertClassifier.save`: writes tokenizer, encoder parameters and
head parameters; touches nothing else. -/
def save (c : Classifier) : SavedArtifacts :=
  ⟨c.tokenizer, c.encoderF, (c.headW, c.headB)⟩

/-- The `CamembertClassifier.load` (`classifier.py` lines 164-169): replaces
the tokenizer and both parameter sets with the artifacts read from the
directory.  `label_names`/`id2label`/`label2id` are not touched. -/
def load (c : Classifier) (a : SavedArtifacts) : Classifier :=
  { c with
    tokenizer := a.tokenizer_files
    encoderF := a.encoder_pt
    headW := a.head_pt.1
    headB := a.head_pt.2 }

/-- Fail-fast traversal: the semantics of a Python loop or comprehension
that applies a fallible operation to each element in order, aborting at
the first exception. -/
def mapExcept {α β : Type} (f : α → Except ClfError β) : List α → Except ClfError (List β)
  | [] => .ok []
  | x :: xs => do
    let y ← f x
    let ys ← mapExcept f xs
    pure (y :: ys)

/-- The list comprehension `[self.label2id[label] for label in labels]`
(`classifier.py` lines 80 and 118): maps each label to its id, raising
`KeyError` at the first label outside the configured set. -/
def encodeLabels (names : List String) (labels : List String) :
    Except ClfError (List Nat) :=
  mapExcept
    (fun l =>
      match label2id names l with
      | none => .error (.labelLookup l)
      | some i => .ok i)
    labels

/-- Number of occurrences of class `k` in a list of label ids. -/
def countEq (l : List Nat) (k : Nat) : Nat :=
  (l.filter (fun x => x = k)).length

/-- True positives of class `k`: positions where truth and prediction are
both `k`. -/
def truePos (y_true y_pred : List Nat) (k : Nat) : Nat :=
  ((y_true.zip y_pred).filter (fun p => p.1 = k ∧ p.2 = k)).length

/-- Precision of class `k` with sklearn's `zero_division=0`. -/
def precisionScore (y_true y_pred : List Nat) (k : Nat) : ℚ :=
  if countEq y_pred k = 0 then 0
  else (truePos y_true y_pred k : ℚ) / countEq y_pred k

/-- Recall of class `k` with sklearn's `zero_division=0`. -/
def recallScore (y_true y_pred : List Nat) (k : Nat) : ℚ :=
  if countEq y_true k = 0 then 0
  else (truePos y_true y_pred k : ℚ) / countEq y_true k

/-- F1 of class `k`: harmonic mean of precision and recall, 0 when both
vanish (sklearn `zero_division=0`). -/
def f1Score (y_true y_pred : List Nat) (k : Nat) : ℚ :=
  if precisionScore y_true y_pred k + recallScore y_true y_pred k = 0 then 0
  else 2 * precisionScore y_true y_pred k * recallScore y_true y_pred k /
    (precisionScore y_true y_pred k + recallScore y_true y_pred k)

/-- The classes sklearn infers when `labels=None`: the sorted distinct
values of `y_true ∪ y_pred`. -/
def reportClasses (y_true y_pred : List Nat) : List Nat :=
  List.insertionSort (· ≤ ·) (y_true ++ y_pred).dedup

/-- sklearn accuracy: fraction of positions where truth equals prediction. -/
def accuracyScore (y_true y_pred : List Nat) : ℚ :=
  if y_true.length = 0 then 0
  else (((y_true.zip y_pred).filter (fun p => p.1 = p.2)).length : ℚ) / y_true.length

/-- sklearn's `macro avg` f1: unweighted mean of the per-class F1 scores. -/
def macroAvgF1 (y_true y_pred : List Nat) : ℚ :=
  if (reportClasses y_true y_pred).length = 0 then 0
  else ((reportClasses y_true y_pred).map (f1Score y_true y_pred)).sum /
    (reportClasses y_true y_pred).length

/-- sklearn's `weighted avg` f1: support-weighted mean of the per-class F1
scores. -/
def weightedAvgF1 (y_true y_pred : List Nat) : ℚ :=
  if y_true.length = 0 then 0
  else ((reportClasses y_true y_pred).map
      (fun k => f1Score y_true y_pred k * countEq y_true k)).sum / y_true.length

/-- The `sklearn.metrics.classification_report(..., zero_division=0,
output_dict=True)`, restricted to the `f1-score` field, the only one
`evaluate` reads.  With `labels=None` the classes are the sorted distinct
observed ids; when their number differs from `len(target_names)` sklearn
raises `ValueError`.  Otherwise the dict holds one entry per target name
(paired positionally with the classes) plus the `accuracy`, `macro avg`
and `weighted avg` summary entries. -/
def classification_report (y_true y_pred : List Nat) (target_names : List String) :
    Except ClfError (List (String × ℚ)) :=
  if (reportClasses y_true y_pred).length ≠ target_names.length then
    .error (.reportSizeMismatch (reportClasses y_true y_pred).length target_names.length)
  else
    .ok ((target_names.zip (reportClasses y_true y_pred)).map
        (fun p => (p.1, f1Score y_true y_pred p.2)) ++
      [("accuracy", accuracyScore y_true y_pred),
       ("macro avg", macroAvgF1 y_true y_pred),
       ("weighted avg", weightedAvgF1 y_true y_pred)])

/-- The prediction `evaluate` collects for one text (`classifier.py`
lines 128-131): `torch.argmax` over the logits (no softmax in the eval
loop). -/
def predictId (c : Classifier) (text : String) : Except ClfError Nat :=
  match argmaxWithVal (logitsOf c text) with
  | none => .error .emptyLogits
  | some p => .ok p.2

/-- The `CamembertClassifier.evaluate` (`classifier.py` lines 116-140): label
ids of the true labels (dataset construction, line 118), predictions over
all texts, `classification_report`, then the comprehension
`{f"{label}_f1": values["f1-score"] for label, values in report.items()
if label in self.label_names}`.  Batching (size 16) does not affect the
predictions since the texts are encoded in one call before batching. -/
def evaluate (c : Classifier) (texts labels : List String) :
    Except ClfError (List (String × ℚ)) := do
  let y_true ← encodeLabels c.label_names labels
  let preds ← mapExcept (predictId c) texts
  let report ← classification_report y_true preds c.label_names
  pure ((report.filter (fun p => p.1 ∈ c.label_names)).map fun p => (p.1 ++ "_f1", p.2))

/-- The parameters jointly updated by the optimizer: encoder parameters
(as the function they induce) and the head's weight and bias. -/
def TrainableParams : Type :=
  (List Nat → List ℚ) × List (List ℚ) × List ℚ

/-- The `CamembertClassifier.train` (`classifier.py` lines 66-114).  The
dataset construction maps every training label through `label2id`
(line 80, `KeyError` on an unknown label) BEFORE the optimizer is built
and the epoch loop runs.  The loop itself — `epochs` shuffled passes of
AdamW steps over mini-batches (lines 83-104) — updates only the encoder
and head parameters; it is abstracted as an opaque function `fit` from the
initial parameters and the encoded examples to the updated parameters
(epochs, batch size, learning rate, weight decay and the shuffling
randomness are absorbed into `fit`).  If evaluation data is supplied
(line 107: both sequences non-empty), the metrics of `evaluate` on the
updated model are returned, else an empty mapping.  The optional
`output_dir` side effect (line 110-112) only calls `save`. -/
def train (fit : TrainableParams → List (List Nat × Nat) → TrainableParams)
    (c : Classifier) (train_texts train_labels : List String)
    (eval_texts eval_labels : List String) :
    Except ClfError (Classifier × List (String × ℚ)) := do
  let ids ← encodeLabels c.label_names train_labels
  let examples := (train_texts.map c.tokenizer).zip ids
  let params := fit (c.encoderF, c.headW, c.headB) examples
  let c' : Classifier :=
    { c with encoderF := params.1, headW := params.2.1, headB := params.2.2 }
  let metrics ←
    if eval_texts ≠ [] ∧ eval_labels ≠ [] then evaluate c' eval_texts eval_labels
    else pure []
  pure (c', metrics)

/-- The `DocumentPrediction` dataclass of `pipeline.py`. -/
structure DocumentPrediction where
  doc : Document
  ocr_pages : List OCRPageResult
  aggregated_text : String
  mean_confidence : Option ℚ
  prediction : ClassificationResult

/-- An error escaping from `DocumentProcessingPipeline.process`: either an
OCR error or a classifier error, propagated unmodified. -/
inductive PipelineError where
  | ocr (e : OCRError)
  | clf (e : ClfError)
deriving Repr, DecidableEq

/-- The `DocumentProcessingPipeline.process` (`pipeline.py` lines 30-41): OCR
run, text and confidence aggregation, classification of the aggregated
text, bundled into one record; any failure propagates. -/
def process (expf : ℚ → ℚ) (c : Classifier) (doc : Document) :
    Except PipelineError DocumentPrediction := do
  let ocr_pages ← (run doc).mapError PipelineError.ocr
  let aggregated_text := aggregate_text ocr_pages
  let mean_confidence := aggregate_confidence ocr_pages
  let prediction ← (predict expf c aggregated_text).mapError PipelineError.clf
  pure ⟨doc, ocr_pages, aggregated_text, mean_confidence, prediction⟩

/-- The `DocumentProcessingPipeline.bulk_process` (`pipeline.py` lines 43-44):
the list comprehension `[self.process(path) for path in document_paths]` —
in-order processing, aborted whole by the first exception. -/
def bulk_process (expf : ℚ → ℚ) (c : Classifier) (docs : List Document) :
    Except PipelineError (List DocumentPrediction) :=
  docs.mapM (process expf c)

/-- Modelled from the spec's wording, for cross-checking `aggregate_text`:
the page texts "joined in page order by the blank-line separator". -/
def joinPages : List String → String
  | [] => ""
  | [t] => t
  | t :: ts => t ++ "\n\n" ++ joinPages ts

/-- A concrete everywhere-positive stand-in for the softmax exponential,
used to instantiate witnesses. -/
def exp1 : ℚ → ℚ := fun _ => 1

/-- A small concrete classifier over the labels of the spec's scenario.
Its (frozen) encoder sends every text to the embedding `[1]`, so the head
`[[1],[0]]` with bias `[0,0]` yields logits `[1, 0]` on every input:
class 0 (`"facture"`) is always predicted. -/
def cEx : Classifier :=
  { label_names := ["facture", "autre"]
    tokenizer := fun _ => []
    encoderF := fun _ => [1]
    headW := [[1], [0]]
    headB := [0, 0] }

/-! Helper lemmas about the page loop -/

lemma pageStep_append (acc : List String × List ℚ) (t : TessToken) :
    pageStep acc t = (acc.1 ++ (pageStep ([], []) t).1, acc.2 ++ (pageStep ([], []) t).2) := by
  obtain ⟨tx, _ | c⟩ := t <;> simp only [pageStep] <;> split_ifs <;> simp

lemma foldl_pageStep_eq (tokens : List TessToken) (acc : List String × List ℚ) :
    tokens.foldl pageStep acc = (acc.1 ++ (pageLoop tokens).1, acc.2 ++ (pageLoop tokens).2) := by
  induction tokens generalizing acc with
  | nil => simp [pageLoop]
  | cons t ts ih =>
    rw [List.foldl_cons, ih (pageStep acc t)]
    conv_rhs => rw [pageLoop, List.foldl_cons, ih (pageStep ([], []) t)]
    rw [pageStep_append acc t]
    simp [List.append_assoc]

lemma pageLoop_cons (t : TessToken) (ts : List TessToken) :
    pageLoop (t :: ts) =
      ((pageStep ([], []) t).1 ++ (pageLoop ts).1, (pageStep ([], []) t).2 ++ (pageLoop ts).2) := by
  rw [pageLoop, List.foldl_cons, foldl_pageStep_eq]

lemma pageLoop_snd (tokens : List TessToken) :
    (pageLoop tokens).2 =
      tokens.filterMap (fun t => t.conf.bind (fun c => if c > -1 then some c else none)) := by
  induction tokens with
  | nil => rfl
  | cons t ts ih =>
    rw [pageLoop_cons, List.filterMap_cons]
    obtain ⟨tx, _ | c⟩ := t
    · simpa [pageStep] using ih
    · by_cases h : c > -1 <;> simp [pageStep, h, ih]

lemma pageLoop_fst (tokens : List TessToken) :
    (pageLoop tokens).1 = (tokens.filter (fun t => hasContent t.text)).map (·.text) := by
  induction tokens with
  | nil => rfl
  | cons t ts ih =>
    rw [pageLoop_cons, List.filter_cons]
    by_cases h : hasContent t.text <;> simp [pageStep, h, ih]

/-! Helper lemmas about joining page texts -/

lemma intercalate_go_cons (s : String) :
    ∀ (as : List String) (acc b : String),
      String.intercalate.go acc s (b :: as) = acc ++ s ++ String.intercalate.go b s as := by
  intro as
  induction as with
  | nil => intro acc b; rfl
  | cons c cs ih =>
    intro acc b
    show String.intercalate.go (acc ++ s ++ b) s (c :: cs) = _
    rw [ih (acc ++ s ++ b) c, ih b c]
    simp [String.append_assoc]

lemma intercalate_eq_joinPages : ∀ l : List String, String.intercalate "\n\n" l = joinPages l
  | [] => rfl
  | [_] => rfl
  | t :: u :: ts => by
    have h1 : String.intercalate "\n\n" (t :: u :: ts) =
        t ++ "\n\n" ++ String.intercalate "\n\n" (u :: ts) := by
      show String.intercalate.go t "\n\n" (u :: ts) = _
      rw [intercalate_go_cons]
      rfl
    rw [h1, intercalate_eq_joinPages (u :: ts)]
    rfl

/-! Claim theorems: OCR engine -/

lemma run_on_pdf_page_numbers (pages : List (List TessToken)) :
    (run_on_pdf pages).map (·.page_number) = List.range' 1 pages.length := by
  have h1 : ∀ p : Nat × List TessToken,
      (run_on_pil_image p.2 (p.1 + 1)).page_number = p.1 + 1 := fun p => rfl
  calc (run_on_pdf pages).map (·.page_number)
      = pages.enum.map (fun p => p.1 + 1) := by
        rw [run_on_pdf, List.map_map]
        exact List.map_congr_left (fun p _ => h1 p)
    _ = (pages.enum.map Prod.fst).map (fun i => i + 1) := by
        rw [List.map_map]
        rfl
    _ = List.range' 1 pages.length := by
        rw [List.enum_map_fst, List.range'_eq_map_range]
        exact List.map_congr_left (fun a _ => Nat.add_comm a 1)

/-- C3: `aggregate_text` returns the page texts joined in page order by the
blank-line separator `"\n\n"`; any successful `run` yields page numbers
`1..N` with no gaps; and the concrete 2-page scenario (page 1 `"Facture"`
at confidence 92, page 2 empty with absent confidence) yields
`"Facture\n\n"` and aggregated confidence 92. -/
theorem aggregate_text_join_and_page_numbers
    (results : List OCRPageResult) (pages : List (List TessToken)) :
    aggregate_text results = joinPages (results.map (·.text)) ∧
    (run_on_pdf pages).map (·.page_number) = List.range' 1 pages.length ∧
    (∀ (doc : Document) (ps : List OCRPageResult), run doc = .ok ps →
      ps.map (·.page_number) = List.range' 1 ps.length) ∧
    aggregate_text [⟨1, "Facture", some 92⟩, ⟨2, "", none⟩] = "Facture\n\n" ∧
    aggregate_confidence [⟨1, "Facture", some 92⟩, ⟨2, "", none⟩] = some 92 := by
  refine ⟨intercalate_eq_joinPages _, run_on_pdf_page_numbers pages, ?_, rfl, ?_⟩
  · intro doc ps hrun
    rw [run] at hrun
    split_ifs at hrun with h1
    simp only [] at hrun
    split_ifs at hrun with h2 h3
    · injection hrun with h'
      rw [← h', run_on_pdf_page_numbers]
      have : (run_on_pdf doc.pdfPages).length = doc.pdfPages.length := by
        rw [run_on_pdf, List.length_map, List.enum_length]
      rw [this]
    · injection hrun with h'
      rw [← h']
      rfl
  · norm_num [aggregate_confidence, List.filterMap]

/-- Witness for C3: the page numbers of a successful 2-page PDF run are
`[1, 2]`. -/
theorem aggregate_text_join_witness :
    ([⟨1, "Facture", some 92⟩, (⟨2, "", none⟩ : OCRPageResult)]).map (·.page_number) =
      List.range' 1 2 :=
  (aggregate_text_join_and_page_numbers [] []).2.2.1
    ⟨true, ".pdf", [[⟨"Facture", some 92⟩], []], []⟩
    [⟨1, "Facture", some 92⟩, ⟨2, "", none⟩]
    (by norm_num +decide [run, run_on_pdf, run_on_pil_image, pageLoop, pageStep, hasContent,
      lowerStr, List.enum])

/-- C4: `aggregate_confidence` returns `none` iff every page confidence is
absent; otherwise it returns the arithmetic mean of exactly the present
page confidences (stated multiplicatively: the returned value times the
number of present confidences equals their sum). -/
theorem aggregate_confidence_spec (results : List OCRPageResult) :
    (aggregate_confidence results = none ↔ ∀ r ∈ results, r.confidence = none) ∧
    ∀ q : ℚ, aggregate_confidence results = some q →
      results.filterMap OCRPageResult.confidence ≠ [] ∧
      q * (results.filterMap OCRPageResult.confidence).length =
        (results.filterMap OCRPageResult.confidence).sum := by
  constructor
  · rw [aggregate_confidence]
    split_ifs with h
    · simpa [List.filterMap_eq_nil_iff] using h
    · simp only [reduceCtorEq, false_iff]
      intro hall
      exact h (by simpa [List.filterMap_eq_nil_iff] using hall)
  · intro q hq
    rw [aggregate_confidence] at hq
    split_ifs at hq with h
    · refine ⟨h, ?_⟩
      have hlen0 : 0 < (results.filterMap OCRPageResult.confidence).length :=
        List.length_pos.mpr h
      have hlen : ((results.filterMap OCRPageResult.confidence).length : ℚ) ≠ 0 :=
        Nat.cast_ne_zero.mpr (Nat.pos_iff_ne_zero.mp hlen0)
      have hq' : (results.filterMap OCRPageResult.confidence).sum /
          ((results.filterMap OCRPageResult.confidence).length : ℚ) = q := by
        simpa using hq
      rw [← hq']
      exact div_mul_cancel₀ _ hlen

/-- Witness for C4 at the concrete 2-page scenario with mean 92. -/
theorem aggregate_confidence_spec_witness :
    [⟨1, "Facture", some 92⟩, (⟨2, "", none⟩ : OCRPageResult)].filterMap
        OCRPageResult.confidence ≠ [] ∧
    (92 : ℚ) * ([⟨1, "Facture", some 92⟩, (⟨2, "", none⟩ : OCRPageResult)].filterMap
        OCRPageResult.confidence).length =
      ([⟨1, "Facture", some 92⟩, (⟨2, "", none⟩ : OCRPageResult)].filterMap
        OCRPageResult.confidence).sum :=
  (aggregate_confidence_spec _).2 92 (by norm_num [aggregate_confidence, List.filterMap])

/-- C5: a token confidence enters the per-page mean iff `float(conf)`
succeeded and the value is strictly greater than the `-1` sentinel; the
page confidence is absent iff no value survives; concretely a
0-confidence value is retained while `-1` and `-2` are excluded. -/
theorem confidence_sentinel_spec (tokens : List TessToken) (n : Nat) :
    (∀ c : ℚ, c ∈ (pageLoop tokens).2 ↔ ((∃ t ∈ tokens, t.conf = some c) ∧ c > -1)) ∧
    ((run_on_pil_image tokens n).confidence = none ↔
      ∀ t ∈ tokens, ∀ c : ℚ, t.conf = some c → c ≤ -1) ∧
    (run_on_pil_image [⟨"a", some 0⟩] 1).confidence = some 0 ∧
    (run_on_pil_image [⟨"a", some (-1)⟩] 1).confidence = none ∧
    (run_on_pil_image [⟨"a", some (-2)⟩] 1).confidence = none := by
  refine ⟨?_, ?_, ?_, ?_, ?_⟩
  · intro c
    rw [pageLoop_snd, List.mem_filterMap]
    constructor
    · rintro ⟨t, ht, hsome⟩
      rcases hconf : t.conf with _ | c'
      · simp [hconf] at hsome
      · rcases lt_or_le (-1 : ℚ) c' with hlt | hle
        · simp only [hconf, Option.some_bind, gt_iff_lt, if_pos hlt] at hsome
          obtain rfl : c' = c := by simpa using hsome
          exact ⟨⟨t, ht, hconf⟩, hlt⟩
        · simp [hconf, not_lt.mpr hle] at hsome
    · rintro ⟨⟨t, ht, hconf⟩, hlt⟩
      exact ⟨t, ht, by simp [hconf, hlt]⟩
  · rw [run_on_pil_image]
    simp only []
    constructor
    · intro hnone t ht c hconf
      by_contra hgt
      push_neg at hgt
      have hmem : c ∈ (pageLoop tokens).2 := by
        rw [pageLoop_snd, List.mem_filterMap]
        exact ⟨t, ht, by simp [hconf, hgt]⟩
      have : (pageLoop tokens).2 ≠ [] := List.ne_nil_of_mem hmem
      simp [this] at hnone
    · intro hall
      have hempty : (pageLoop tokens).2 = [] := by
        rw [pageLoop_snd, List.filterMap_eq_nil_iff]
        intro t ht
        rcases hconf : t.conf with _ | c
        · rfl
        · have := hall t ht c hconf
          simp [not_lt.mpr this]
      simp [hempty]
  · norm_num [run_on_pil_image, pageLoop, pageStep, hasContent]
  · norm_num [run_on_pil_image, pageLoop, pageStep, hasContent]
  · norm_num [run_on_pil_image, pageLoop, pageStep, hasContent]

/-- Witness for C5: a 0-confidence token is retained and yields page
confidence 0. -/
theorem confidence_sentinel_spec_witness :
    (run_on_pil_image [⟨"a", some 0⟩] 1).confidence = some 0 :=
  (confidence_sentinel_spec [] 0).2.2.1

/-- C6: on an existing file whose lower-cased extension is neither `.pdf`
nor a supported raster extension, `run` raises `UnsupportedFormat` without
reading any content (the result is the same for arbitrary contents); on a
non-existing path, `run` raises `NotFound`. -/
theorem run_error_spec (suffix : String) (pdf pdf' : List (List TessToken))
    (img img' : List TessToken) :
    (lowerStr suffix ∉ ([".pdf", ".png", ".jpg", ".jpeg", ".tiff"] : List String) →
      run ⟨true, suffix, pdf, img⟩ = .error (.unsupportedFormat (lowerStr suffix)) ∧
      run ⟨true, suffix, pdf, img⟩ = run ⟨true, suffix, pdf', img'⟩) ∧
    run ⟨false, suffix, pdf, img⟩ = .error .notFound := by
  constructor
  · intro h
    simp only [List.mem_cons, List.mem_singleton, not_or] at h
    obtain ⟨h1, h2, h3, h4, h5⟩ := h
    constructor <;> simp [run, h1, h2, h3, h4, h5]
  · simp [run]

/-- Witness for C6 at the concrete extension `".DocX"` and concrete
contents. -/
theorem run_error_spec_witness :
    run ⟨true, ".DocX", [[⟨"x", some 1⟩]], []⟩ = .error (.unsupportedFormat ".docx") ∧
    run ⟨true, ".DocX", [[⟨"x", some 1⟩]], []⟩ = run ⟨true, ".DocX", [], [⟨"y", none⟩]⟩ := by
  have hl : lowerStr ".DocX" = ".docx" := by decide
  have h := (run_error_spec ".DocX" [[⟨"x", some 1⟩]] [] [] [⟨"y", none⟩]).1
    (by rw [hl]; decide)
  refine ⟨?_, h.2⟩
  rw [h.1, hl]

/-! Claim theorems: pipeline -/

lemma except_bind_ok {ε α β : Type} (a : α) (f : α → Except ε β) :
    ((Except.ok a : Except ε α) >>= f) = f a := rfl

lemma except_bind_error {ε α β : Type} (e : ε) (f : α → Except ε β) :
    ((Except.error e : Except ε α) >>= f) = .error e := rfl

lemma except_pure_eq {ε α : Type} (a : α) : (pure a : Except ε α) = .ok a := rfl

lemma except_map_ok {ε α β : Type} (f : α → β) (a : α) :
    (f <$> (Except.ok a : Except ε α)) = .ok (f a) := rfl

lemma except_map_error {ε α β : Type} (f : α → β) (e : ε) :
    (f <$> (Except.error e : Except ε α)) = .error e := rfl

lemma bulk_process_nil (expf : ℚ → ℚ) (c : Classifier) :
    bulk_process expf c [] = .ok [] := rfl

lemma bulk_process_cons (expf : ℚ → ℚ) (c : Classifier) (d : Document) (ds : List Document) :
    bulk_process expf c (d :: ds) =
      (process expf c d >>= fun r =>
        bulk_process expf c ds >>= fun rs => pure (r :: rs)) := by
  rw [bulk_process, List.mapM_cons]
  rfl

/-- C7: `bulk_process` applies `process` to each path in input order and
returns the results in that order; and if `process` fails on one document
(all documents before it succeeding), the whole batch call fails with that
error — whatever documents follow — and no partial result list is
returned. -/
theorem bulk_process_spec (expf : ℚ → ℚ) (c : Classifier) :
    (∀ docs rs, bulk_process expf c docs = .ok rs →
      rs.length = docs.length ∧
      ∀ i, i < docs.length →
        ∃ d r, docs[i]? = some d ∧ rs[i]? = some r ∧ process expf c d = .ok r) ∧
    (∀ pre d post e, (∀ x ∈ pre, ∃ r, process expf c x = .ok r) →
      process expf c d = .error e →
      bulk_process expf c (pre ++ d :: post) = .error e) := by
  constructor
  · intro docs
    induction docs with
    | nil =>
      intro rs h
      rw [bulk_process_nil] at h
      obtain rfl : ([] : List DocumentPrediction) = rs := by simpa using h
      exact ⟨rfl, fun i hi => absurd hi (by simp)⟩
    | cons d ds ih =>
      intro rs h
      rw [bulk_process_cons] at h
      cases hp : process expf c d with
      | error e => rw [hp, except_bind_error] at h; exact absurd h (by simp)
      | ok r =>
        rw [hp, except_bind_ok] at h
        cases hb : bulk_process expf c ds with
        | error e => rw [hb, except_bind_error] at h; exact absurd h (by simp)
        | ok rs' =>
          rw [hb, except_bind_ok] at h
          obtain rfl : r :: rs' = rs := by simpa [pure, Except.pure] using h
          obtain ⟨hlen, hidx⟩ := ih rs' hb
          refine ⟨by simp [hlen], ?_⟩
          intro i hi
          cases i with
          | zero => exact ⟨d, r, by simp, by simp, hp⟩
          | succ j =>
            obtain ⟨d', r', h1, h2, h3⟩ := hidx j (by simpa using hi)
            exact ⟨d', r', by simpa using h1, by simpa using h2, h3⟩
  · intro pre
    induction pre with
    | nil =>
      intro d post e _ herr
      rw [List.nil_append, bulk_process_cons, herr, except_bind_error]
    | cons x xs ih =>
      intro d post e hok herr
      obtain ⟨r, hr⟩ := hok x (by simp)
      rw [List.cons_append, bulk_process_cons, hr, except_bind_ok,
        ih d post e (fun y hy => hok y (by simp [hy])) herr, except_bind_error]

/-- Witness for C7: a batch whose single document does not exist fails
with the propagated `NotFound`, with an empty prefix of successes. -/
theorem bulk_process_spec_witness :
    bulk_process exp1 cEx ([] ++ (⟨false, ".pdf", [], []⟩ : Document) :: []) =
      .error (.ocr .notFound) :=
  (bulk_process_spec exp1 cEx).2 [] ⟨false, ".pdf", [], []⟩ [] (.ocr .notFound)
    (by intro x hx; exact absurd hx (by simp)) rfl

/-! Helper lemmas about argmax, softmax and the label maps -/

lemma argmaxAux_cases : ∀ (zs : List ℚ) (best : ℚ) (bestIdx i : Nat),
    argmaxAux zs best bestIdx i = (best, bestIdx) ∨
    ((argmaxAux zs best bestIdx i).1 ∈ zs ∧ i ≤ (argmaxAux zs best bestIdx i).2 ∧
      (argmaxAux zs best bestIdx i).2 < i + zs.length) := by
  intro zs
  induction zs with
  | nil => intro best bestIdx i; exact Or.inl rfl
  | cons z zs ih =>
    intro best bestIdx i
    have hstep : argmaxAux (z :: zs) best bestIdx i =
        if best < z then argmaxAux zs z i (i + 1)
        else argmaxAux zs best bestIdx (i + 1) := rfl
    rw [hstep]
    by_cases hz : best < z
    · rw [if_pos hz]
      rcases ih z i (i + 1) with heq | ⟨hmem, hle, hlt⟩
      · right
        rw [heq]
        exact ⟨List.mem_cons_self z zs, le_refl i, by simp⟩
      · right
        refine ⟨List.mem_cons_of_mem z hmem, by omega, ?_⟩
        simp only [List.length_cons]
        omega
    · rw [if_neg hz]
      rcases ih best bestIdx (i + 1) with heq | ⟨hmem, hle, hlt⟩
      · left; exact heq
      · right
        refine ⟨List.mem_cons_of_mem z hmem, by omega, ?_⟩
        simp only [List.length_cons]
        omega

lemma argmaxWithVal_mem {zs : List ℚ} {v : ℚ} {j : Nat}
    (h : argmaxWithVal zs = some (v, j)) : v ∈ zs ∧ j < zs.length := by
  cases zs with
  | nil => exact absurd h (by simp [argmaxWithVal])
  | cons z zs =>
    have hj : argmaxAux zs z 0 1 = (v, j) := by
      have h' : some (argmaxAux zs z 0 1) = some (v, j) := h
      simpa using h'
    rcases argmaxAux_cases zs z 0 1 with heq | ⟨hmem, hle, hlt⟩
    · obtain ⟨rfl, rfl⟩ : v = z ∧ j = 0 := by simpa using hj.symm.trans heq
      exact ⟨List.mem_cons_self _ _, by simp⟩
    · rw [hj] at hmem hle hlt
      exact ⟨List.mem_cons_of_mem z hmem, by simp only [List.length_cons]; omega⟩

lemma softmax_length (expf : ℚ → ℚ) (zs : List ℚ) :
    (softmax expf zs).length = zs.length := by
  simp [softmax]

lemma softmax_mem_bounds {expf : ℚ → ℚ} (hpos : ∀ q : ℚ, 0 < expf q)
    {zs : List ℚ} {v : ℚ} (hv : v ∈ softmax expf zs) : 0 ≤ v ∧ v ≤ 1 := by
  rw [softmax] at hv
  obtain ⟨e, he, rfl⟩ := List.mem_map.mp hv
  have hmem_pos : ∀ x ∈ zs.map expf, 0 < x := by
    intro x hx
    obtain ⟨z, _, rfl⟩ := List.mem_map.mp hx
    exact hpos z
  have hepos : 0 < e := hmem_pos e he
  have hsum : 0 < (zs.map expf).sum :=
    List.sum_pos _ hmem_pos (List.ne_nil_of_mem he)
  constructor
  · positivity
  · rw [div_le_one hsum]
    exact List.single_le_sum (fun x hx => le_of_lt (hmem_pos x hx)) e he

lemma logitsOf_length (c : Classifier) (text : String) :
    (logitsOf c text).length = min c.headW.length c.headB.length := by
  simp [logitsOf]

lemma label2id_eq_none_iff (names : List String) (l : String) :
    label2id names l = none ↔ l ∉ names := by
  rw [label2id, List.getLast?_eq_none_iff, List.map_eq_nil_iff, List.filter_eq_nil_iff]
  constructor
  · intro h hmem
    obtain ⟨i, hi, hget⟩ := List.getElem_of_mem hmem
    exact h (i, l) (List.mk_mem_enum_iff_getElem?.mpr (by rw [List.getElem?_eq_getElem hi, hget]))
      (by simp)
  · rintro h ⟨i, x⟩ hmem hx
    obtain rfl : x = l := by simpa using hx
    exact h (List.getElem?_mem (List.mk_mem_enum_iff_getElem?.mp hmem))

lemma label2id_some (names : List String) (l : String) (i : Nat)
    (h : label2id names l = some i) : names[i]? = some l := by
  rw [label2id, List.getLast?_map] at h
  cases hlast : (names.enum.filter (fun p => p.2 = l)).getLast? with
  | none => rw [hlast] at h; cases h
  | some p =>
    rw [hlast] at h
    obtain rfl : p.1 = i := by simpa using h
    have hp : p ∈ names.enum.filter (fun p => p.2 = l) := by
      obtain ⟨ys, hys⟩ := List.getLast?_eq_some_iff.mp hlast
      rw [hys]
      simp
    rw [List.mem_filter] at hp
    obtain ⟨hpe, hpl⟩ := hp
    obtain ⟨j, x⟩ := p
    obtain rfl : x = l := by simpa using hpl
    exact List.mk_mem_enum_iff_getElem?.mp hpe

lemma label2id_eq_of_nodup (names : List String) (hnd : names.Nodup) {i : Nat} {l : String}
    (h : names[i]? = some l) : label2id names l = some i := by
  have hilt : i < names.length := by
    obtain ⟨hlt, -⟩ := List.getElem?_eq_some.mp h
    exact hlt
  rw [label2id]
  set filtered := names.enum.filter (fun p => p.2 = l) with hf
  have hmem : (i, l) ∈ filtered := by
    rw [hf, List.mem_filter]
    exact ⟨List.mk_mem_enum_iff_getElem?.mpr h, by simp⟩
  have hall : ∀ p ∈ filtered, p = (i, l) := by
    rintro ⟨j, x⟩ hp
    rw [hf, List.mem_filter] at hp
    obtain ⟨hpe, hx⟩ := hp
    obtain rfl : x = l := by simpa using hx
    have hj : names[j]? = some x := List.mk_mem_enum_iff_getElem?.mp hpe
    have : i = j := List.getElem?_inj hilt hnd (h.trans hj.symm)
    simp [this]
  have hne : filtered ≠ [] := List.ne_nil_of_mem hmem
  rw [List.getLast?_map, List.getLast?_eq_getLast _ hne]
  have := hall _ (List.getLast_mem hne)
  rw [this]
  rfl

/-! Claim theorems: classifier -/

/-- C2: `save` into a directory followed by `load` of that directory on a
fresh classifier constructed with the same ordered label list reproduces
the original instance's `predict` output exactly, on every input text. -/
theorem save_load_roundtrip (expf : ℚ → ℚ) (c fresh : Classifier) (t : String)
    (h : fresh.label_names = c.label_names) :
    predict expf (load fresh (save c)) t = predict expf c t := by
  have hload : load fresh (save c) = { c with label_names := fresh.label_names } := rfl
  rw [hload, h]

/-- Witness for C2: a concrete fresh classifier (same labels, different
tokenizer/encoder/head) loaded from `save cEx` agrees with `cEx` on a
concrete input. -/
theorem save_load_roundtrip_witness :
    predict exp1
        (load ⟨["facture", "autre"], fun _ => [0], fun _ => [5], [[2], [3]], [1, 1]⟩ (save cEx))
        "Facture" =
      predict exp1 cEx "Facture" :=
  save_load_roundtrip exp1 cEx
    ⟨["facture", "autre"], fun _ => [0], fun _ => [5], [[2], [3]], [1, 1]⟩ "Facture" rfl

/-- C8: for every input text, `predict` returns a result whose label is in
the configured label set and whose score lies in `[0,1]`; and the result
is uniquely determined (identical on repeated calls with unchanged
parameters).  Hypotheses: the softmax exponential is positive, the head's
dimensions match the label count (as `__init__` builds them), and the
label set is non-empty. -/
theorem predict_spec (expf : ℚ → ℚ) (c : Classifier) (text : String)
    (hpos : ∀ q : ℚ, 0 < expf q)
    (hW : c.headW.length = c.label_names.length)
    (hB : c.headB.length = c.label_names.length)
    (hne : c.label_names ≠ []) :
    ∃ r : ClassificationResult, predict expf c text = .ok r ∧
      r.label ∈ c.label_names ∧ 0 ≤ r.score ∧ r.score ≤ 1 ∧
      ∀ r' : ClassificationResult, predict expf c text = .ok r' → r' = r := by
  have hlen : (softmax expf (logitsOf c text)).length = c.label_names.length := by
    rw [softmax_length, logitsOf_length, hW, hB, min_self]
  obtain ⟨⟨v, j⟩, hvj⟩ : ∃ p, argmaxWithVal (softmax expf (logitsOf c text)) = some p := by
    cases hs : softmax expf (logitsOf c text) with
    | nil =>
      rw [hs] at hlen
      exact absurd (List.eq_nil_of_length_eq_zero hlen.symm) hne
    | cons a as => exact ⟨_, rfl⟩
  obtain ⟨hvmem, hjlt⟩ := argmaxWithVal_mem hvj
  rw [hlen] at hjlt
  have hl : id2label c.label_names j = some c.label_names[j] :=
    List.getElem?_eq_getElem hjlt
  have hok : predict expf c text = .ok ⟨c.label_names[j], v⟩ := by
    rw [predict, hvj]
    dsimp only
    rw [hl]
  obtain ⟨h0, h1⟩ := softmax_mem_bounds hpos hvmem
  refine ⟨⟨c.label_names[j], v⟩, hok, List.getElem_mem hjlt, h0, h1, ?_⟩
  intro r' h'
  rw [hok] at h'
  simpa using h'.symm

/-- Witness for C8 at a concrete classifier and input. -/
theorem predict_spec_witness :
    ∃ r : ClassificationResult, predict exp1 cEx "Facture" = .ok r ∧
      r.label ∈ cEx.label_names ∧ 0 ≤ r.score ∧ r.score ≤ 1 ∧
      ∀ r' : ClassificationResult, predict exp1 cEx "Facture" = .ok r' → r' = r :=
  predict_spec exp1 cEx "Facture" (fun q => by norm_num [exp1]) rfl rfl (by decide)

/-- C9: the label↔id maps derived at construction form a bijection between
the (distinct) label names and the dense 0-based ids given by the
constructor's list order; `load` does not touch the mapping (it is not
persisted or restored), and a successful `train` leaves it unchanged. -/
theorem label_mapping_spec (c : Classifier) (a : SavedArtifacts)
    (fit : TrainableParams → List (List Nat × Nat) → TrainableParams)
    (tts tls ets els : List String) (hnd : c.label_names.Nodup) :
    (∀ (i : Nat) (l : String), id2label c.label_names i = some l ↔ c.label_names[i]? = some l) ∧
    (∀ (l : String) (i : Nat), label2id c.label_names l = some i ↔ c.label_names[i]? = some l) ∧
    (load c a).label_names = c.label_names ∧
    (∀ (c' : Classifier) (m : List (String × ℚ)),
      train fit c tts tls ets els = .ok (c', m) → c'.label_names = c.label_names) := by
  refine ⟨fun i l => Iff.rfl,
    fun l i => ⟨label2id_some c.label_names l i, label2id_eq_of_nodup c.label_names hnd⟩,
    rfl, ?_⟩
  intro c' m htrain
  unfold train at htrain
  cases he : encodeLabels c.label_names tls with
  | error e => rw [he, except_bind_error] at htrain; cases htrain
  | ok ids =>
    rw [he, except_bind_ok] at htrain
    split_ifs at htrain with hcond
    · simp only [] at htrain
      cases hev : evaluate
          { c with
            encoderF := (fit (c.encoderF, c.headW, c.headB) ((tts.map c.tokenizer).zip ids)).1
            headW := (fit (c.encoderF, c.headW, c.headB) ((tts.map c.tokenizer).zip ids)).2.1
            headB := (fit (c.encoderF, c.headW, c.headB) ((tts.map c.tokenizer).zip ids)).2.2 }
          ets els with
      | error e => rw [hev, except_bind_error] at htrain; cases htrain
      | ok metrics =>
        rw [hev, except_bind_ok] at htrain
        obtain ⟨h1, -⟩ : _ ∧ metrics = m := by
          simpa [pure, Except.pure, Prod.ext_iff] using htrain
        rw [← h1]
    · obtain ⟨h1, -⟩ : _ ∧ ([] : List (String × ℚ)) = m := by
        simpa [pure, Except.pure, bind, Except.bind, Prod.ext_iff] using htrain
      rw [← h1]

/-- Witness for C9 at a concrete classifier (distinct labels), artifact
set and training call. -/
theorem label_mapping_spec_witness :
    (∀ (l : String) (i : Nat),
      label2id cEx.label_names l = some i ↔ cEx.label_names[i]? = some l) ∧
    (load cEx (save cEx)).label_names = cEx.label_names :=
  ⟨(label_mapping_spec cEx (save cEx) (fun p _ => p) [] [] [] [] (by decide)).2.1,
   (label_mapping_spec cEx (save cEx) (fun p _ => p) [] [] [] [] (by decide)).2.2.1⟩

/-! Helper lemma for the unknown-label error in train -/

lemma mapExcept_cons {α β : Type} (f : α → Except ClfError β) (x : α) (xs : List α) :
    mapExcept f (x :: xs) =
      (f x >>= fun y => mapExcept f xs >>= fun ys => pure (y :: ys)) := rfl

lemma encodeLabels_error_of_mem (names : List String) :
    ∀ (labels : List String) (l : String), l ∈ labels → label2id names l = none →
      ∃ m, m ∈ labels ∧ label2id names m = none ∧
        encodeLabels names labels = .error (.labelLookup m) := by
  intro labels
  induction labels with
  | nil => intro l hl _; exact absurd hl (by simp)
  | cons x xs ih =>
    intro l hl hnone
    cases hx : label2id names x with
    | none =>
      refine ⟨x, by simp, hx, ?_⟩
      rw [encodeLabels, mapExcept_cons, hx]
      rfl
    | some i =>
      have hlx : l ≠ x := by
        intro heq
        rw [heq, hx] at hnone
        cases hnone
      have hl' : l ∈ xs := by
        rcases List.mem_cons.mp hl with h | h
        · exact absurd h hlx
        · exact h
      obtain ⟨m, hm1, hm2, hm3⟩ := ih l hl' hnone
      refine ⟨m, by simp [hm1], hm2, ?_⟩
      rw [encodeLabels, mapExcept_cons, hx]
      have hxs : mapExcept (fun l => match label2id names l with
          | none => Except.error (ClfError.labelLookup l)
          | some i => Except.ok i) xs = encodeLabels names xs := rfl
      show (Except.ok i >>= fun y => mapExcept _ xs >>= fun ys => pure (y :: ys)) = _
      rw [except_bind_ok, hxs, hm3, except_bind_error]

/-- C10: calling `train` with a training label outside the configured
label set fails with the label-lookup error raised during dataset
construction, before the optimizer loop runs: the result is the same
`labelLookup` error for EVERY loop behaviour `fit`, so neither the
encoder nor the head parameters have been consulted or updated. -/
theorem train_unknown_label_spec (c : Classifier) (tts tls ets els : List String)
    (l : String) (hmem : l ∈ tls) (hout : l ∉ c.label_names) :
    ∃ m, m ∈ tls ∧ m ∉ c.label_names ∧
      ∀ fit : TrainableParams → List (List Nat × Nat) → TrainableParams,
        train fit c tts tls ets els = .error (.labelLookup m) := by
  have hnone : label2id c.label_names l = none := (label2id_eq_none_iff _ _).mpr hout
  obtain ⟨m, hm1, hm2, hm3⟩ := encodeLabels_error_of_mem c.label_names tls l hmem hnone
  refine ⟨m, hm1, (label2id_eq_none_iff _ _).mp hm2, ?_⟩
  intro fit
  unfold train
  rw [hm3, except_bind_error]

/-- Witness for C10: training `cEx` with the unknown label `"devis"`
fails with the label-lookup error for a concrete `fit`. -/
theorem train_unknown_label_spec_witness :
    ∃ m, m ∈ ["facture", "devis"] ∧ m ∉ cEx.label_names ∧
      ∀ fit : TrainableParams → List (List Nat × Nat) → TrainableParams,
        train fit cEx ["a", "b"] ["facture", "devis"] [] [] =
          .error (.labelLookup m) :=
  train_unknown_label_spec cEx ["a", "b"] ["facture", "devis"] [] [] "devis"
    (by simp) (by decide)

/-! Helper lemmas for F1 bounds and evaluate -/

lemma length_filter_zip_le_snd {α β : Type} (P : α × β → Bool) (Q : β → Bool)
    (h : ∀ x, P x = true → Q x.2 = true) :
    ∀ (l1 : List α) (l2 : List β), ((l1.zip l2).filter P).length ≤ (l2.filter Q).length := by
  intro l1
  induction l1 with
  | nil => intro l2; simp
  | cons a l1 ih =>
    intro l2
    cases l2 with
    | nil => simp
    | cons b l2 =>
      rw [List.zip_cons_cons, List.filter_cons, List.filter_cons]
      by_cases hp : P (a, b) = true
      · have hq := h (a, b) hp
        simp only [hp, hq, if_true, List.length_cons]
        exact Nat.succ_le_succ (ih l2)
      · simp only [hp, if_false]
        by_cases hq : Q b = true
        · simp only [hq, if_true, List.length_cons]
          exact le_trans (ih l2) (Nat.le_succ _)
        · simp only [hq, if_false]
          exact ih l2

lemma length_filter_zip_le_fst {α β : Type} (P : α × β → Bool) (Q : α → Bool)
    (h : ∀ x, P x = true → Q x.1 = true) :
    ∀ (l1 : List α) (l2 : List β), ((l1.zip l2).filter P).length ≤ (l1.filter Q).length := by
  intro l1
  induction l1 with
  | nil => intro l2; simp
  | cons a l1 ih =>
    intro l2
    cases l2 with
    | nil => simp
    | cons b l2 =>
      rw [List.zip_cons_cons, List.filter_cons, List.filter_cons]
      by_cases hp : P (a, b) = true
      · have hq := h (a, b) hp
        simp only [hp, hq, if_true, List.length_cons]
        exact Nat.succ_le_succ (ih l2)
      · simp only [hp, if_false]
        by_cases hq : Q a = true
        · simp only [hq, if_true, List.length_cons]
          exact le_trans (ih l2) (Nat.le_succ _)
        · simp only [hq, if_false]
          exact ih l2

lemma truePos_le_countEq_pred (y_true y_pred : List Nat) (k : Nat) :
    truePos y_true y_pred k ≤ countEq y_pred k := by
  apply length_filter_zip_le_snd
  intro x hx
  simp only [Bool.and_eq_true, decide_eq_true_eq] at hx ⊢
  exact hx.2

lemma truePos_le_countEq_true (y_true y_pred : List Nat) (k : Nat) :
    truePos y_true y_pred k ≤ countEq y_true k := by
  apply length_filter_zip_le_fst
  intro x hx
  simp only [Bool.and_eq_true, decide_eq_true_eq] at hx ⊢
  exact hx.1

lemma precisionScore_bounds (y_true y_pred : List Nat) (k : Nat) :
    0 ≤ precisionScore y_true y_pred k ∧ precisionScore y_true y_pred k ≤ 1 := by
  rw [precisionScore]
  split_ifs with h
  · norm_num
  · have hpos : 0 < (countEq y_pred k : ℚ) := by
      exact_mod_cast Nat.pos_of_ne_zero h
    constructor
    · positivity
    · rw [div_le_one hpos]
      exact_mod_cast truePos_le_countEq_pred y_true y_pred k

lemma recallScore_bounds (y_true y_pred : List Nat) (k : Nat) :
    0 ≤ recallScore y_true y_pred k ∧ recallScore y_true y_pred k ≤ 1 := by
  rw [recallScore]
  split_ifs with h
  · norm_num
  · have hpos : 0 < (countEq y_true k : ℚ) := by
      exact_mod_cast Nat.pos_of_ne_zero h
    constructor
    · positivity
    · rw [div_le_one hpos]
      exact_mod_cast truePos_le_countEq_true y_true y_pred k

lemma f1Score_bounds (y_true y_pred : List Nat) (k : Nat) :
    0 ≤ f1Score y_true y_pred k ∧ f1Score y_true y_pred k ≤ 1 := by
  obtain ⟨hp0, hp1⟩ := precisionScore_bounds y_true y_pred k
  obtain ⟨hr0, hr1⟩ := recallScore_bounds y_true y_pred k
  rw [f1Score]
  split_ifs with h
  · norm_num
  · have hpr : 0 < precisionScore y_true y_pred k + recallScore y_true y_pred k :=
      lt_of_le_of_ne (by positivity) (Ne.symm h)
    refine ⟨div_nonneg (by positivity) hpr.le, ?_⟩
    rw [div_le_one hpr]
    nlinarith [mul_nonneg hp0 (sub_nonneg.mpr hr1), mul_nonneg hr0 (sub_nonneg.mpr hp1)]

lemma evaluate_ok_elim {c : Classifier} {texts labels : List String}
    {m : List (String × ℚ)} (hok : evaluate c texts labels = .ok m) :
    ∃ y_true preds report,
      encodeLabels c.label_names labels = .ok y_true ∧
      mapExcept (predictId c) texts = .ok preds ∧
      classification_report y_true preds c.label_names = .ok report ∧
      m = (report.filter (fun p => p.1 ∈ c.label_names)).map
        (fun p => (p.1 ++ "_f1", p.2)) := by
  unfold evaluate at hok
  cases h1 : encodeLabels c.label_names labels with
  | error e => rw [h1, except_bind_error] at hok; cases hok
  | ok y_true =>
    rw [h1, except_bind_ok] at hok
    cases h2 : mapExcept (predictId c) texts with
    | error e => rw [h2, except_bind_error] at hok; cases hok
    | ok preds =>
      rw [h2, except_bind_ok] at hok
      cases h3 : classification_report y_true preds c.label_names with
      | error e => rw [h3, except_bind_error] at hok; cases hok
      | ok report =>
        rw [h3, except_bind_ok] at hok
        exact ⟨y_true, preds, report, rfl, rfl, h3,
          by simpa [pure, Except.pure] using hok.symm⟩

lemma classification_report_ok_elim {y_true y_pred : List Nat}
    {target_names : List String} {report : List (String × ℚ)}
    (h : classification_report y_true y_pred target_names = .ok report) :
    (reportClasses y_true y_pred).length = target_names.length ∧
    report = (target_names.zip (reportClasses y_true y_pred)).map
        (fun p => (p.1, f1Score y_true y_pred p.2)) ++
      [("accuracy", accuracyScore y_true y_pred),
       ("macro avg", macroAvgF1 y_true y_pred),
       ("weighted avg", weightedAvgF1 y_true y_pred)] := by
  rw [classification_report] at h
  split_ifs at h with hc
  injection h with h'
  exact ⟨not_ne_iff.mp hc, h'.symm⟩

lemma evaluate_keys {c : Classifier} {texts labels : List String}
    {m : List (String × ℚ)} (hok : evaluate c texts labels = .ok m)
    (ha : "accuracy" ∉ c.label_names) (hmac : "macro avg" ∉ c.label_names)
    (hw : "weighted avg" ∉ c.label_names) :
    m.map Prod.fst = c.label_names.map (fun l => l ++ "_f1") ∧
    ∀ p ∈ m, 0 ≤ p.2 ∧ p.2 ≤ 1 := by
  obtain ⟨y_true, preds, report, h1, h2, h3, hm⟩ := evaluate_ok_elim hok
  obtain ⟨hlen, hreport⟩ := classification_report_ok_elim h3
  subst hreport
  subst hm
  rw [List.filter_append]
  have hdrop : List.filter (fun p => decide (p.1 ∈ c.label_names))
      [("accuracy", accuracyScore y_true preds),
       ("macro avg", macroAvgF1 y_true preds),
       ("weighted avg", weightedAvgF1 y_true preds)] = [] := by
    simp [ha, hmac, hw]
  have hkeep : List.filter (fun p => decide (p.1 ∈ c.label_names))
      ((c.label_names.zip (reportClasses y_true preds)).map
        (fun p => (p.1, f1Score y_true preds p.2))) =
      (c.label_names.zip (reportClasses y_true preds)).map
        (fun p => (p.1, f1Score y_true preds p.2)) := by
    rw [List.filter_eq_self]
    intro p hp
    obtain ⟨q, hq, rfl⟩ := List.mem_map.mp hp
    obtain ⟨a, b⟩ := q
    have hmem : a ∈ c.label_names := (List.of_mem_zip hq).1
    simpa using hmem
  rw [hdrop, hkeep, List.append_nil]
  constructor
  · rw [List.map_map, List.map_map]
    have hle : c.label_names.length ≤ (reportClasses y_true preds).length :=
      le_of_eq hlen.symm
    conv_rhs => rw [← List.map_fst_zip c.label_names (reportClasses y_true preds) hle]
    rw [List.map_map]
    rfl
  · intro p hp
    rw [List.map_map] at hp
    obtain ⟨q, hq, rfl⟩ := List.mem_map.mp hp
    exact f1Score_bounds y_true preds q.2

lemma train_ok_eval_elim
    {fit : TrainableParams → List (List Nat × Nat) → TrainableParams}
    {c : Classifier} {tts tls ets els : List String} {c' : Classifier}
    {m : List (String × ℚ)}
    (h : train fit c tts tls ets els = .ok (c', m))
    (hets : ets ≠ []) (hels : els ≠ []) :
    c'.label_names = c.label_names ∧ evaluate c' ets els = .ok m := by
  unfold train at h
  cases he : encodeLabels c.label_names tls with
  | error e => rw [he, except_bind_error] at h; cases h
  | ok ids =>
    rw [he, except_bind_ok] at h
    split_ifs at h with hcond
    · simp only [] at h
      cases hev : evaluate
          { c with
            encoderF := (fit (c.encoderF, c.headW, c.headB) ((tts.map c.tokenizer).zip ids)).1
            headW := (fit (c.encoderF, c.headW, c.headB) ((tts.map c.tokenizer).zip ids)).2.1
            headB := (fit (c.encoderF, c.headW, c.headB) ((tts.map c.tokenizer).zip ids)).2.2 }
          ets els with
      | error e => rw [hev, except_bind_error] at h; cases h
      | ok metrics =>
        rw [hev, except_bind_ok] at h
        obtain ⟨h1, h2⟩ : _ ∧ metrics = m := by
          simpa [pure, Except.pure, Prod.ext_iff] using h
        subst h2
        rw [← h1]
        exact ⟨rfl, hev⟩
    · exact absurd ⟨hets, hels⟩ hcond

/-! Claim theorems: evaluate F1 mapping (C1) -/

/-- C1 counterexample: the claim as stated is FALSE on the code.  For the
2-label classifier `cEx` (`["facture", "autre"]`) evaluated on two texts
with true labels `facture`, `autre`, the returned mapping's keys are
`facture_f1` and `autre_f1` — the configured label names suffixed with
`_f1` — not the label names themselves: the key list differs from
`["facture", "autre"]` and `"facture"` is not a key. -/
theorem evaluate_keys_counterexample :
    evaluate cEx ["x", "y"] ["facture", "autre"] =
      .ok [("facture_f1", 2 / 3), ("autre_f1", 0)] ∧
    [("facture_f1", (2 : ℚ) / 3), ("autre_f1", (0 : ℚ))].map Prod.fst ≠ cEx.label_names ∧
    "facture" ∉ [("facture_f1", (2 : ℚ) / 3), ("autre_f1", (0 : ℚ))].map Prod.fst := by
  refine ⟨?_, by decide, by decide⟩
  norm_num +decide [evaluate, encodeLabels, mapExcept, label2id, predictId, logitsOf, dot,
    argmaxWithVal, argmaxAux, classification_report, reportClasses, f1Score, precisionScore,
    recallScore, countEq, truePos, accuracyScore, macroAvgF1, weightedAvgF1, cEx,
    except_bind_ok, except_bind_error, except_pure_eq, except_map_ok, except_map_error,
    List.enum, List.insertionSort, List.orderedInsert, List.dedup, List.pwFilter]

/-- C1 (amended): `evaluate` (and `train` when evaluation data is
supplied) returns, whenever it succeeds, a mapping with exactly one F1
entry per configured label name, in label order, whose keys are the label
names suffixed with `_f1` (NOT the bare label names), each value lying in
`[0, 1]`.  The reserved sklearn summary names must not themselves be
configured labels. -/
theorem evaluate_f1_keys_spec (c : Classifier) (texts labels tts tls : List String)
    (m mt : List (String × ℚ)) (c' : Classifier)
    (fit : TrainableParams → List (List Nat × Nat) → TrainableParams)
    (ha : "accuracy" ∉ c.label_names) (hmac : "macro avg" ∉ c.label_names)
    (hw : "weighted avg" ∉ c.label_names) :
    (evaluate c texts labels = .ok m →
      m.map Prod.fst = c.label_names.map (fun l => l ++ "_f1") ∧
      ∀ p ∈ m, 0 ≤ p.2 ∧ p.2 ≤ 1) ∧
    (train fit c tts tls texts labels = .ok (c', mt) → texts ≠ [] → labels ≠ [] →
      mt.map Prod.fst = c.label_names.map (fun l => l ++ "_f1") ∧
      ∀ p ∈ mt, 0 ≤ p.2 ∧ p.2 ≤ 1) := by
  constructor
  · intro hok
    exact evaluate_keys hok ha hmac hw
  · intro htrain hets hels
    obtain ⟨hnames, hev⟩ := train_ok_eval_elim htrain hets hels
    have hres := evaluate_keys hev (by rw [hnames]; exact ha) (by rw [hnames]; exact hmac)
      (by rw [hnames]; exact hw)
    rwa [hnames] at hres

/-- Witness for C1 at the concrete classifier and evaluation data of the
counterexample. -/
theorem evaluate_f1_keys_spec_witness :
    [("facture_f1", (2 : ℚ) / 3), ("autre_f1", (0 : ℚ))].map Prod.fst =
        cEx.label_names.map (fun l => l ++ "_f1") ∧
    ∀ p ∈ [("facture_f1", (2 : ℚ) / 3), ("autre_f1", (0 : ℚ))], 0 ≤ p.2 ∧ p.2 ≤ 1 :=
  (evaluate_f1_keys_spec cEx ["x", "y"] ["facture", "autre"] [] []
    [("facture_f1", (2 : ℚ) / 3), ("autre_f1", (0 : ℚ))] [] cEx (fun p _ => p)
    (by decide) (by decide) (by decide)).1
    (by norm_num +decide [evaluate, encodeLabels, mapExcept, label2id, predictId, logitsOf, dot,
      argmaxWithVal, argmaxAux, classification_report, reportClasses, f1Score, precisionScore,
      recallScore, countEq, truePos, accuracyScore, macroAvgF1, weightedAvgF1, cEx,
      except_bind_ok, except_bind_error, except_pure_eq, except_map_ok, except_map_error,
      List.enum, List.insertionSort, List.orderedInsert, List.dedup, List.pwFilter])

end OCRClassifier
